import Mathlib

/-!
Verification of `src/module-lindroid.c` (lindroid-piperwire).

This file gives a shallow embedding of the parts of the module that the
specification talks about:

* the global bounded ring buffer (`audio_buffer`, `audio_buffer_start`,
  `audio_buffer_end`, `BUFFER_SIZE`), its producer loop inside
  `socket_receive_thread` and its consumer logic inside
  `source_playback_process`;
* the sparse id bitmaps (`bitmap_add`, `bitmap_remove`);
* the sink-reconciliation event handlers (`registry_event_global`,
  `registry_event_global_remove`, `sink_proxy_bound_props`, `core_done`,
  `check_sinks`, `sink_create`, `sink_destroy`, `schedule_check`,
  `reschedule_check`);
* the two real-time process callbacks (`playback_stream_process`,
  `source_playback_process`) and the hardcoded capture format
  (`parse_audio_info_mic`).

Machine integers are modelled as `Nat` (all the quantities involved are
unsigned and stay far below any overflow boundary except where noted);
bytes are `Nat` values `< 256`.  Fallible or blocking code returns
`Option`.
-/

namespace Lindroid

/-! ## Constants (from the C `#define`s) -/

def BUFFER_SIZE : Nat := 102400

def AUDIO_OUTPUT_PREFIX : Nat := 1

def AUDIO_INPUT_PREFIX : Nat := 2

/-- `SPA_ID_INVALID` is `0xffffffff`. -/
def SPA_ID_INVALID : Nat := 4294967295

/-! ## The global ring buffer

State of `audio_buffer` / `audio_buffer_start` / `audio_buffer_end`.
The byte array is modelled as a function `Nat → Nat`; only indices
`< BUFFER_SIZE` are ever read. -/

structure RB where
  buf : Nat → Nat
  start : Nat
  stop : Nat

/-- Well-formedness: both offsets are in range (they are only ever
assigned values reduced `% BUFFER_SIZE`). -/
def RB.WF (st : RB) : Prop := st.start < BUFFER_SIZE ∧ st.stop < BUFFER_SIZE

/-- The initial state: static zero-initialised globals. -/
def initRB : RB := ⟨fun _ => 0, 0, 0⟩

/-- Number of unread bytes currently in the buffer
(`(stop - start) mod BUFFER_SIZE`, written without `%` using the
case split `start ≤ stop`). -/
def size (st : RB) : Nat :=
  if st.start ≤ st.stop then st.stop - st.start else BUFFER_SIZE - st.start + st.stop

/-- The unread bytes, oldest first: positions
`start, start+1, …, start+size-1` (mod `BUFFER_SIZE`). -/
def contents (st : RB) : List Nat :=
  (List.range (size st)).map (fun i => st.buf ((st.start + i) % BUFFER_SIZE))

/-- One iteration of the producer copy loop in `socket_receive_thread`
(module-lindroid.c lines 130–136):

    audio_buffer[audio_buffer_end] = temp_buffer[i];
    audio_buffer_end = (audio_buffer_end + 1) % BUFFER_SIZE;
    if (audio_buffer_end == audio_buffer_start)
        audio_buffer_start = (audio_buffer_start + 1) % BUFFER_SIZE;
-/
def write1 (st : RB) (b : Nat) : RB :=
  let buf' := fun j => if j = st.stop then b else st.buf j
  let stop' := (st.stop + 1) % BUFFER_SIZE
  if stop' = st.start then ⟨buf', (st.start + 1) % BUFFER_SIZE, stop'⟩
  else ⟨buf', st.start, stop'⟩

/-- The whole copy loop: write a batch of bytes, one at a time. -/
def writeAll (st : RB) (bs : List Nat) : RB := bs.foldl write1 st

/-- The last `n` elements of a list (all of it when it is shorter). -/
def lastN (n : Nat) (l : List α) : List α := (l.reverse.take n).reverse

/-- The contiguous run available without wrapping, as computed by
`source_playback_process` (lines 238–242):
`stop - start` if `stop > start`, else `BUFFER_SIZE - start`. -/
def availableContiguous (st : RB) : Nat :=
  if st.stop > st.start then st.stop - st.start else BUFFER_SIZE - st.start

/-- The consumer read of `source_playback_process` (lines 238–246),
after the condition wait has established non-emptiness:

    copy_size = SPA_MIN(requested_size, available_size);
    memcpy(dst, audio_buffer + audio_buffer_start, copy_size);
    audio_buffer_start = (audio_buffer_start + copy_size) % BUFFER_SIZE;

Returns the copied bytes and the new state. -/
def read (st : RB) (maxBytes : Nat) : List Nat × RB :=
  let n := min maxBytes (availableContiguous st)
  ((List.range n).map (fun i => st.buf (st.start + i)),
   ⟨st.buf, (st.start + n) % BUFFER_SIZE, st.stop⟩)

/-- A blocking read in a context with no producer: the wait loop
`while (start == end) pthread_cond_wait(...)` never returns on an empty
buffer, modelled as `none`. -/
def readB (st : RB) (maxBytes : Nat) : Option (List Nat × RB) :=
  if st.start = st.stop then none else some (read st maxBytes)

/-- Run a sequence of blocking reads with the given `maxBytes` requests. -/
def readSeq (st : RB) : List Nat → Option (List (List Nat) × RB)
  | [] => some ([], st)
  | m :: ms =>
    match readB st m with
    | none => none
    | some (out, st') =>
      match readSeq st' ms with
      | none => none
      | some (outs, st'') => some (out :: outs, st'')

/-- Observable result of a read sequence: the concatenated output and
whether the buffer ended up empty.  `none` if some read blocked forever. -/
def readSeqJoin (st : RB) (ms : List Nat) : Option (List Nat × Bool) :=
  (readSeq st ms).map (fun p => (p.1.flatten, p.2.start == p.2.stop))

example : contents (writeAll initRB [1, 2, 3]) = [1, 2, 3] := by decide

example : readSeqJoin (writeAll initRB [1, 2, 3]) [3] = some ([1, 2, 3], true) := by decide

/-! ## Sparse id bitmaps (`struct bitmap`, `bitmap_add`, `bitmap_remove`)

`data` is the byte array (`uint8_t *data` of `size` bytes, so
`size = data.length`), `items` is the element counter.  `i >> 3` and
`i & 0x7` are written `i / 8` and `i % 8`. -/

structure Bitmap where
  data : List Nat
  items : Nat
  deriving DecidableEq

def emptyBitmap : Bitmap := ⟨[], 0⟩

/-- The growth step of `bitmap_add` (lines 355–366): if `pos` is out of
range, `realloc` to `new_size = size + pos + 16` and zero the fresh
region. -/
def bitmap_grow (map : Bitmap) (pos : Nat) : Bitmap :=
  if map.data.length ≤ pos then
    let new_size := map.data.length + pos + 16
    ⟨map.data ++ List.replicate (new_size - map.data.length) 0, map.items⟩
  else map

/-- `bitmap_add` (lines 350–375).  Returns the new map and the C return
value: `1` if the bit was already set, `0` on a fresh add.  (The
`realloc` failure path `-errno` is not modelled: allocation is assumed
to succeed.) -/
def bitmap_add (map : Bitmap) (i : Nat) : Bitmap × Int :=
  let pos := i / 8
  let mask := 1 <<< (i % 8)
  let m := bitmap_grow map pos
  if m.data.getD pos 0 &&& mask ≠ 0 then (m, 1)
  else (⟨m.data.set pos (m.data.getD pos 0 ||| mask), m.items + 1⟩, 0)

/-- `bitmap_remove` (lines 377–392).  Returns the new map and the C
return value: `true` iff the bit was set (and has been cleared).
`map->data[pos] &= ~mask` on a byte is `&&& (255 ^^^ mask)`.
(`--map->items` is `items - 1`; under the counter invariant proved
below, `items ≥ 1` whenever a bit is cleared, so `Nat` subtraction
agrees with the C `size_t` decrement.) -/
def bitmap_remove (map : Bitmap) (i : Nat) : Bitmap × Bool :=
  let pos := i / 8
  let mask := 1 <<< (i % 8)
  if map.data.length ≤ pos then (map, false)
  else if map.data.getD pos 0 &&& mask = 0 then (map, false)
  else (⟨map.data.set pos (map.data.getD pos 0 &&& (255 ^^^ mask)), map.items - 1⟩, true)

/-- Membership: the bit for `i` is set. -/
def bitmap_mem (map : Bitmap) (i : Nat) : Bool :=
  map.data.getD (i / 8) 0 &&& (1 <<< (i % 8)) ≠ 0

/-- Number of set bits in one byte. -/
def popcount8 (b : Nat) : Nat := ((List.range 8).filter (fun j => b.testBit j)).length

/-- Number of set bits in the whole bitmap. -/
def countBits (map : Bitmap) : Nat := (map.data.map popcount8).sum

/-- `add_id` (lines 400–411): rejects `SPA_ID_INVALID` with `-EINVAL`
(`-22`), otherwise defers to `bitmap_add`. -/
def add_id (map : Bitmap) (id : Nat) : Bitmap × Int :=
  if id = SPA_ID_INVALID then (map, -22) else bitmap_add map id

example : bitmap_mem (bitmap_add emptyBitmap 5).1 5 = true := by decide

example : (bitmap_add (bitmap_add emptyBitmap 5).1 5).2 = 1 := by decide

example : (bitmap_remove (bitmap_add emptyBitmap 5).1 5).1.items = 0 := by decide

/-! ## The sink-reconciliation machine

State of `struct impl` as far as the reconciliation handlers touch it:
the two id bitmaps, the barrier bookkeeping (`check_seq`, `scheduled`)
and whether the fallback sink proxy currently exists (`impl->sink`,
a single pointer, hence a `Bool`).

`pw_core_sync` returns a fresh sequence number chosen by the host; each
event handler takes that environment-supplied number as the `newSeq`
argument (at most one `sync` call actually fires per handler, since
`reschedule_check` fires only when `scheduled` and `schedule_check`
only when not). -/

structure ImplState where
  sink_ids : Bitmap
  fallback_sink_ids : Bitmap
  check_seq : Int
  scheduled : Bool
  sink : Bool
  deriving DecidableEq

def initImpl : ImplState := ⟨emptyBitmap, emptyBitmap, 0, false, false⟩

/-- Reconciliation actions observable at the host-graph boundary. -/
inductive CAction where
  | created
  | destroyed
  deriving DecidableEq

/-- `reschedule_check` (lines 413–419). -/
def reschedule_check (st : ImplState) (newSeq : Int) : ImplState :=
  if st.scheduled then { st with check_seq := newSeq } else st

/-- `schedule_check` (lines 421–428). -/
def schedule_check (st : ImplState) (newSeq : Int) : ImplState :=
  if st.scheduled then st
  else { st with scheduled := true, check_seq := newSeq }

/-- `sink_create` (lines 465–481): a no-op when the proxy already
exists; otherwise attempts creation (`createOk` models whether
`pw_core_create_object` succeeds). -/
def sink_create (st : ImplState) (createOk : Bool) : ImplState × List CAction :=
  if st.sink then (st, [])
  else if createOk then ({ st with sink := true }, [CAction.created])
  else (st, [])

/-- `sink_destroy` (lines 483–490): a no-op when no proxy exists;
otherwise `pw_proxy_destroy` runs the proxy's destroy handler
(`sink_proxy_destroy`), clearing `impl->sink`. -/
def sink_destroy (st : ImplState) : ImplState × List CAction :=
  if st.sink then ({ st with sink := false }, [CAction.destroyed])
  else (st, [])

/-- `check_sinks` (lines 492–505). -/
def check_sinks (st : ImplState) (createOk : Bool) : ImplState × List CAction :=
  if st.sink_ids.items > st.fallback_sink_ids.items then sink_destroy st
  else sink_create st createOk

/-- `core_done` (lines 547–555). -/
def core_done (st : ImplState) (seq : Int) (createOk : Bool) : ImplState × List CAction :=
  if seq = st.check_seq then
    check_sinks { st with scheduled := false } createOk
  else (st, [])

/-- The media-class filter of `registry_event_global` (line 522–523);
`spa_streq` against a `NULL` string is false. -/
def isSinkMediaClass : Option String → Bool
  | some s => s == "Audio/Sink" || s == "Audio/Sink/Virtual"
  | none => false

/-- `registry_event_global` (lines 507–528). -/
def registry_event_global (st : ImplState) (newSeq : Int) (hasProps : Bool)
    (typeIsNode : Bool) (mediaClass : Option String) (id : Nat) : ImplState :=
  let st1 := reschedule_check st newSeq
  if !hasProps then st1
  else if !typeIsNode then st1
  else if !isSinkMediaClass mediaClass then st1
  else
    let st2 := { st1 with sink_ids := (add_id st1.sink_ids id).1 }
    schedule_check st2 newSeq

/-- `registry_event_global_remove` (lines 530–539). -/
def registry_event_global_remove (st : ImplState) (newSeq : Int) (id : Nat) : ImplState :=
  let st1 := reschedule_check st newSeq
  let st2 := { st1 with fallback_sink_ids := (bitmap_remove st1.fallback_sink_ids id).1 }
  let r := bitmap_remove st2.sink_ids id
  let st3 := { st2 with sink_ids := r.1 }
  if r.2 then schedule_check st3 newSeq else st3

/-- `sink_proxy_bound_props` (lines 437–446). -/
def sink_proxy_bound_props (st : ImplState) (newSeq : Int) (id : Nat) : ImplState :=
  let st1 := { st with sink_ids := (add_id st.sink_ids id).1 }
  let st2 := { st1 with fallback_sink_ids := (add_id st1.fallback_sink_ids id).1 }
  schedule_check (reschedule_check st2 newSeq) newSeq

/-- The events delivered to the reconciliation machine by the host
event loop. -/
inductive REvent where
  | globalAdd (newSeq : Int) (hasProps typeIsNode : Bool) (mediaClass : Option String) (id : Nat)
  | globalRemove (newSeq : Int) (id : Nat)
  | bound (newSeq : Int) (id : Nat)
  | done (seq : Int) (createOk : Bool)

def applyREvent (st : ImplState) : REvent → ImplState
  | .globalAdd newSeq hasProps typeIsNode mediaClass id =>
    registry_event_global st newSeq hasProps typeIsNode mediaClass id
  | .globalRemove newSeq id => registry_event_global_remove st newSeq id
  | .bound newSeq id => sink_proxy_bound_props st newSeq id
  | .done seq createOk => (core_done st seq createOk).1

def runREvents (evs : List REvent) : ImplState := evs.foldl applyREvent initImpl

/-! ## The playback bridge callback (`playback_stream_process`) -/

/-- A dequeued playback buffer: the fields of `buf->buffer->datas[0]`
that the callback reads.  `data` is the byte content behind the data
pointer. -/
structure PBBuf where
  chunkOffset : Nat
  chunkSize : Nat
  maxsize : Nat
  data : List Nat
  deriving DecidableEq

/-- Observable outcome of one playback cycle. -/
structure PBResult where
  queued : Bool
  sentFrame : Option (List Nat)
  deriving DecidableEq

/-- `playback_stream_process` (lines 170–209).  `deq` is the result of
`pw_stream_dequeue_buffer` (`none` = out of buffers), `fd` is
`impl->audio_socket_fd`, `sendOk` models whether `send` succeeds (its
failure is only logged, so it does not influence the observable
outcome beyond the log). -/
def playback_stream_process (deq : Option PBBuf) (fd : Int) (sendOk : Bool) : PBResult :=
  match deq with
  | none => ⟨false, none⟩
  | some b =>
    let offs := min b.chunkOffset b.maxsize
    let sz := min b.chunkSize (b.maxsize - offs)
    let data := (b.data.drop offs).take sz
    if fd ≠ -1 then
      if sz ≥ 10239 then
        ⟨false, none⟩
      else
        let frame := AUDIO_OUTPUT_PREFIX :: data
        ⟨true, some frame⟩
    else ⟨true, none⟩

/-! ## The capture bridge callback (`source_playback_process`) -/

/-- A dequeued capture buffer: `b->requested` sample-frames, the
destination capacity `datas[0].maxsize`, and whether the data pointer
is `NULL`. -/
structure SrcBuf where
  requested : Nat
  maxsize : Nat
  dataNull : Bool
  deriving DecidableEq

/-- Observable outcome of one capture cycle.  The chunk fields are
`none` when the callback returned before writing them. -/
structure SrcResult where
  queued : Bool
  written : List Nat
  chunkOffset : Option Nat
  chunkStride : Option Nat
  chunkSize : Option Nat
  reportedFrames : Option Nat
  rb : RB

/-- `source_playback_process` (lines 211–254).  The outer `none` is the
condition wait blocking forever on an empty ring buffer with no
producer.  The early returns (dequeue failure, `NULL` data pointer)
leave the ring buffer untouched and do not queue the buffer back. -/
def source_playback_process (rb : RB) (deq : Option SrcBuf) : Option SrcResult :=
  match deq with
  | none => some ⟨false, [], none, none, none, none, rb⟩
  | some b =>
    if b.dataNull then some ⟨false, [], none, none, none, none, rb⟩
    else
      let requested_size := min (b.requested * 4) b.maxsize
      if rb.start = rb.stop then none
      else
        let r := read rb requested_size
        some ⟨true, r.1, some 0, some 4, some r.1.length, some (r.1.length / 4), r.2⟩

/-! ## The hardcoded capture format (`parse_audio_info_mic`) -/

/-- The fields of `spa_audio_info_raw` that `parse_audio_info_mic`
sets. -/
structure AudioInfoRaw where
  format : String
  rate : Nat
  channels : Nat
  deriving DecidableEq

/-- `parse_audio_info_mic` (lines 694–705): S16, 48 kHz, mono. -/
def parse_audio_info_mic : AudioInfoRaw := ⟨"S16", 48000, 1⟩

/-- `parse_audio_info` (lines 681–692): S16, 48 kHz, stereo. -/
def parse_audio_info : AudioInfoRaw := ⟨"S16", 48000, 2⟩

/-- Bytes per sample-frame of a 16-bit signed PCM format: 2 bytes per
sample, one sample per channel. -/
def frameBytes (info : AudioInfoRaw) : Nat := 2 * info.channels

/-! ## Derived notions used in the statements -/

/-- All stored bytes are bytes. -/
def BytesWF (m : Bitmap) : Prop := ∀ b ∈ m.data, b < 256

/-- One operation on a bitmap, for stating sequence properties. -/
inductive BOp where
  | add (i : Nat)
  | remove (i : Nat)

def applyBOp (m : Bitmap) : BOp → Bitmap
  | .add i => (bitmap_add m i).1
  | .remove i => (bitmap_remove m i).1

def runBOps (ops : List BOp) : Bitmap := ops.foldl applyBOp emptyBitmap

/-- `FallbackSinkIdSet ⊆ SinkIdSet`. -/
def FallbackSubset (st : ImplState) : Prop :=
  ∀ i, bitmap_mem st.fallback_sink_ids i = true → bitmap_mem st.sink_ids i = true

/-- The contract of a single consumer read on a non-empty buffer:
the returned bytes are the oldest `min maxBytes availableContiguous`
buffered bytes, `start` advances by exactly that amount, `stop` is
untouched, and the read never crosses the wrap boundary
(`start + count ≤ BUFFER_SIZE`). -/
def ReadContract (st : RB) (m : Nat) : Prop :=
  (read st m).1 = (contents st).take (min m (availableContiguous st)) ∧
  (read st m).1.length = min m (availableContiguous st) ∧
  contents (read st m).2 = (contents st).drop (min m (availableContiguous st)) ∧
  (read st m).2.start = (st.start + min m (availableContiguous st)) % BUFFER_SIZE ∧
  (read st m).2.stop = st.stop ∧
  min m (availableContiguous st) ≤ BUFFER_SIZE - st.start

/-! ## Bitmap lemmas -/

/-- `x & (1 << k)` is nonzero exactly when bit `k` of `x` is set. -/
lemma and_shiftLeft_ne_zero (x k : Nat) : (x &&& (1 <<< k) ≠ 0) ↔ x.testBit k = true := by
  have h1 : (1 : Nat) <<< k = 2 ^ k := by rw [Nat.shiftLeft_eq, one_mul]
  rw [h1, Nat.and_two_pow]
  cases h : x.testBit k <;> simp [h]

lemma bitmap_mem_iff (m : Bitmap) (i : Nat) :
    bitmap_mem m i = true ↔ (m.data.getD (i / 8) 0).testBit (i % 8) = true := by
  simp only [bitmap_mem, ne_eq, decide_eq_true_eq]
  exact and_shiftLeft_ne_zero _ _

lemma getD_grow (m : Bitmap) (pos q : Nat) :
    (bitmap_grow m pos).data.getD q 0 = m.data.getD q 0 := by
  unfold bitmap_grow
  split
  · simp only [List.getD_eq_getElem?_getD]
    by_cases h : q < m.data.length
    · rw [List.getElem?_append_left h]
    · rw [List.getElem?_append_right (Nat.le_of_not_lt h), List.getElem?_replicate,
        List.getElem?_eq_none (Nat.le_of_not_lt h)]
      split <;> rfl
  · rfl

lemma grow_length (m : Bitmap) (pos : Nat) : pos < (bitmap_grow m pos).data.length := by
  unfold bitmap_grow
  split
  · simp; omega
  · omega

lemma grow_items (m : Bitmap) (pos : Nat) : (bitmap_grow m pos).items = m.items := by
  unfold bitmap_grow; split <;> rfl

/-- `testBit` of the all-ones byte. -/
lemma testBit_255 : ∀ k, k < 8 → Nat.testBit 255 k = true := by decide

/-- Bit `i` after `bitmap_add _ i` is set. -/
lemma bitmap_mem_add_self (m : Bitmap) (i : Nat) : bitmap_mem (bitmap_add m i).1 i = true := by
  rw [bitmap_mem_iff]
  simp only [bitmap_add]
  split
  · next h =>
    rw [getD_grow] at h ⊢
    rw [← bitmap_mem_iff]
    simp only [bitmap_mem, ne_eq, decide_eq_true_eq]
    exact h
  · simp only [List.getD_eq_getElem?_getD,
      List.getElem?_set_eq_of_lt _ (grow_length m (i / 8)), Option.getD_some]
    have h1 : (1 : Nat) <<< (i % 8) = 2 ^ (i % 8) := by rw [Nat.shiftLeft_eq, one_mul]
    rw [h1]
    simp [Nat.testBit_two_pow_self]

/-- `bitmap_add` at a different id leaves bit `i` unchanged. -/
lemma bitmap_mem_add_ne (m : Bitmap) {i j : Nat} (hij : i ≠ j) :
    bitmap_mem (bitmap_add m j).1 i = bitmap_mem m i := by
  have hmem : bitmap_mem (bitmap_grow m (j / 8)) i = bitmap_mem m i := by
    rw [bitmap_mem, bitmap_mem, getD_grow]
  simp only [bitmap_add]
  split
  · exact hmem
  · rw [bitmap_mem, bitmap_mem, List.getD_eq_getElem?_getD, List.getD_eq_getElem?_getD]
    by_cases hpos : i / 8 = j / 8
    · have hk : i % 8 ≠ j % 8 := by omega
      rw [hpos, List.getElem?_set_eq_of_lt _ (grow_length m (j / 8)), Option.getD_some]
      have h1 : (1 : Nat) <<< (j % 8) = 2 ^ (j % 8) := by rw [Nat.shiftLeft_eq, one_mul]
      have h2 : ∀ x : Nat, (x &&& (1 <<< (i % 8)) ≠ 0) = (x.testBit (i % 8) = true) := by
        intro x; rw [eq_iff_iff]; exact and_shiftLeft_ne_zero _ _
      simp only [h2]
      rw [h1, Nat.testBit_or, Nat.testBit_two_pow_of_ne (fun h => hk h.symm), Bool.or_false,
        ← List.getD_eq_getElem?_getD, getD_grow, List.getD_eq_getElem?_getD]
    · rw [List.getElem?_set_ne (fun h => hpos h.symm),
        ← List.getD_eq_getElem?_getD, getD_grow, List.getD_eq_getElem?_getD]

/-- Bit `i` after `bitmap_remove _ i` is clear. -/
lemma bitmap_mem_remove_self (m : Bitmap) (i : Nat) :
    bitmap_mem (bitmap_remove m i).1 i = false := by
  simp only [bitmap_remove]
  split
  · next h =>
    simp only [bitmap_mem, ne_eq, decide_eq_false_iff_not, Decidable.not_not]
    rw [List.getD_eq_getElem?_getD, List.getElem?_eq_none (by omega)]
    simp
  · split
    · next h =>
      simp only [bitmap_mem, ne_eq, decide_eq_false_iff_not, Decidable.not_not]
      exact h
    · simp only [bitmap_mem, ne_eq, decide_eq_false_iff_not, Decidable.not_not]
      rw [List.getD_eq_getElem?_getD, List.getElem?_set_eq_of_lt _ (by omega), Option.getD_some]
      have h1 : (1 : Nat) <<< (i % 8) = 2 ^ (i % 8) := by rw [Nat.shiftLeft_eq, one_mul]
      rw [h1, Nat.and_two_pow]
      have h255 : Nat.testBit 255 (i % 8) = true :=
        testBit_255 _ (Nat.mod_lt _ (by norm_num))
      simp [Nat.testBit_and, Nat.testBit_xor, Nat.testBit_two_pow_self, h255]

/-- `bitmap_remove` at a different id leaves bit `i` unchanged. -/
lemma bitmap_mem_remove_ne (m : Bitmap) {i j : Nat} (hij : i ≠ j) :
    bitmap_mem (bitmap_remove m j).1 i = bitmap_mem m i := by
  simp only [bitmap_remove]
  split
  · rfl
  · split
    · rfl
    · rw [bitmap_mem, bitmap_mem, List.getD_eq_getElem?_getD, List.getD_eq_getElem?_getD]
      by_cases hpos : i / 8 = j / 8
      · have hk : i % 8 ≠ j % 8 := by omega
        rw [hpos, List.getElem?_set_eq_of_lt _ (by omega), Option.getD_some]
        have h1 : (1 : Nat) <<< (j % 8) = 2 ^ (j % 8) := by rw [Nat.shiftLeft_eq, one_mul]
        have h2 : ∀ x : Nat, (x &&& (1 <<< (i % 8)) ≠ 0) = (x.testBit (i % 8) = true) := by
          intro x; rw [eq_iff_iff]; exact and_shiftLeft_ne_zero _ _
        simp only [h2]
        rw [h1, Nat.testBit_and, Nat.testBit_xor,
          Nat.testBit_two_pow_of_ne (fun h => hk h.symm),
          testBit_255 _ (Nat.mod_lt _ (by norm_num))]
        simp [← List.getD_eq_getElem?_getD, hpos]
      · rw [List.getElem?_set_ne (fun h => hpos h.symm)]
        simp [← List.getD_eq_getElem?_getD]

/-! ### The `items`-equals-popcount invariant -/

set_option maxRecDepth 4096 in
/-- Per-byte facts about set/clear of one bit, checked exhaustively
over all bytes and bit positions. -/
lemma byteFacts : ∀ b < 256, ∀ k < 8,
    (b ||| (1 <<< k)) < 256 ∧
    (b &&& (255 ^^^ (1 <<< k))) < 256 ∧
    (b &&& (1 <<< k) = 0 → popcount8 (b ||| (1 <<< k)) = popcount8 b + 1) ∧
    (b &&& (1 <<< k) ≠ 0 → popcount8 (b &&& (255 ^^^ (1 <<< k))) + 1 = popcount8 b) := by
  decide

/-- Replacing one list element changes a mapped sum by the difference
of the images. -/
lemma sum_map_set (f : Nat → Nat) (l : List Nat) :
    ∀ (n a : Nat), n < l.length →
      ((l.set n a).map f).sum + f (l.getD n 0) = (l.map f).sum + f a := by
  induction l with
  | nil => intro n a h; simp at h
  | cons b l ih =>
    intro n a h
    cases n with
    | zero => simp [List.set]; omega
    | succ n =>
      have h' : n < l.length := by simpa using h
      have := ih n a h'
      simp only [List.set, List.getD_cons_succ, List.map_cons, List.sum_cons]
      omega

lemma popcount8_zero : popcount8 0 = 0 := by decide

lemma countBits_grow (m : Bitmap) (pos : Nat) :
    countBits (bitmap_grow m pos) = countBits m := by
  unfold bitmap_grow
  split
  · simp [countBits, List.map_replicate, popcount8_zero, List.sum_replicate]
  · rfl

lemma bytesWF_grow (m : Bitmap) (pos : Nat) (h : BytesWF m) :
    BytesWF (bitmap_grow m pos) := by
  unfold bitmap_grow
  split
  · intro b hb
    rcases List.mem_append.1 hb with hb | hb
    · exact h b hb
    · rw [List.eq_of_mem_replicate hb]; norm_num
  · exact h

lemma getD_mem_of_lt (l : List Nat) (n : Nat) (h : n < l.length) : l.getD n 0 ∈ l := by
  rw [List.getD_eq_getElem?_getD, List.getElem?_eq_getElem h]
  exact List.getElem_mem h

/-- `bitmap_add` preserves byte-wellformedness and the
`items = countBits` invariant, and increments `items` exactly on a
fresh bit. -/
lemma bitmap_add_inv (m : Bitmap) (i : Nat) (hwf : BytesWF m) (hc : m.items = countBits m) :
    BytesWF (bitmap_add m i).1 ∧ (bitmap_add m i).1.items = countBits (bitmap_add m i).1 := by
  have hk : i % 8 < 8 := Nat.mod_lt _ (by norm_num)
  have hg : BytesWF (bitmap_grow m (i / 8)) := bytesWF_grow m _ hwf
  have hgc : (bitmap_grow m (i / 8)).items = countBits (bitmap_grow m (i / 8)) := by
    rw [grow_items, countBits_grow]; exact hc
  have hlen := grow_length m (i / 8)
  have hbyte : (bitmap_grow m (i / 8)).data.getD (i / 8) 0 < 256 :=
    hg _ (getD_mem_of_lt _ _ hlen)
  simp only [bitmap_add]
  split
  · exact ⟨hg, hgc⟩
  · next hbit =>
    rw [Decidable.not_not] at hbit
    obtain ⟨hb1, _, hb3, _⟩ := byteFacts _ hbyte _ hk
    constructor
    · intro b hb
      rcases List.mem_or_eq_of_mem_set hb with hb | hb
      · exact hg b hb
      · rw [hb]; exact hb1
    · have hs := sum_map_set popcount8 (bitmap_grow m (i / 8)).data (i / 8)
        ((bitmap_grow m (i / 8)).data.getD (i / 8) 0 ||| (1 <<< (i % 8))) hlen
      simp only [countBits] at hgc ⊢
      rw [hb3 hbit] at hs
      omega

/-- `bitmap_remove` preserves byte-wellformedness and the
`items = countBits` invariant. -/
lemma bitmap_remove_inv (m : Bitmap) (i : Nat) (hwf : BytesWF m) (hc : m.items = countBits m) :
    BytesWF (bitmap_remove m i).1 ∧
      (bitmap_remove m i).1.items = countBits (bitmap_remove m i).1 := by
  have hk : i % 8 < 8 := Nat.mod_lt _ (by norm_num)
  simp only [bitmap_remove]
  split
  · exact ⟨hwf, hc⟩
  · split
    · exact ⟨hwf, hc⟩
    · next hoob hbit =>
      have hlen : i / 8 < m.data.length := by omega
      have hbyte : m.data.getD (i / 8) 0 < 256 := hwf _ (getD_mem_of_lt _ _ hlen)
      obtain ⟨_, hb2, _, hb4⟩ := byteFacts _ hbyte _ hk
      constructor
      · intro b hb
        rcases List.mem_or_eq_of_mem_set hb with hb | hb
        · exact hwf b hb
        · rw [hb]; exact hb2
      · have hs := sum_map_set popcount8 m.data (i / 8)
          (m.data.getD (i / 8) 0 &&& (255 ^^^ (1 <<< (i % 8)))) hlen
        simp only [countBits] at hc ⊢
        have := hb4 hbit
        omega

/-- `bitmap_add` reports `1` exactly when the bit was already set. -/
lemma bitmap_add_snd (m : Bitmap) (i : Nat) :
    (bitmap_add m i).2 = 1 ↔ bitmap_mem m i = true := by
  simp only [bitmap_add, bitmap_mem]
  split
  · next h =>
    rw [getD_grow] at h
    simp only [List.getD_eq_getElem?_getD] at h
    simp [h]
  · next h =>
    rw [getD_grow, Decidable.not_not] at h
    simp only [List.getD_eq_getElem?_getD] at h
    simp [h]

/-- `bitmap_add` increments `items` exactly on a fresh bit. -/
lemma bitmap_add_items (m : Bitmap) (i : Nat) :
    (bitmap_add m i).1.items
      = if bitmap_mem m i then m.items else m.items + 1 := by
  simp only [bitmap_add, bitmap_mem]
  split
  · next h =>
    rw [getD_grow] at h
    simp only [List.getD_eq_getElem?_getD] at h
    simp [h, grow_items]
  · next h =>
    rw [getD_grow, Decidable.not_not] at h
    simp only [List.getD_eq_getElem?_getD] at h
    simp [h, grow_items]

/-- `bitmap_remove` reports `true` exactly when the bit was set. -/
lemma bitmap_remove_snd (m : Bitmap) (i : Nat) :
    (bitmap_remove m i).2 = true ↔ bitmap_mem m i = true := by
  simp only [bitmap_remove, bitmap_mem]
  split
  · next h =>
    have hn : m.data[i / 8]? = none := List.getElem?_eq_none (by omega)
    simp [hn]
  · split
    · next h =>
      simp only [List.getD_eq_getElem?_getD] at h
      simp [h]
    · next h =>
      simp only [List.getD_eq_getElem?_getD] at h
      simp [h]

/-- `bitmap_remove` decrements `items` exactly when the bit was set. -/
lemma bitmap_remove_items (m : Bitmap) (i : Nat) :
    (bitmap_remove m i).1.items
      = if bitmap_mem m i then m.items - 1 else m.items := by
  simp only [bitmap_remove, bitmap_mem]
  split
  · next h =>
    have hn : m.data[i / 8]? = none := List.getElem?_eq_none (by omega)
    simp [hn]
  · split
    · next h =>
      simp only [List.getD_eq_getElem?_getD] at h
      simp [h]
    · next h =>
      simp only [List.getD_eq_getElem?_getD] at h
      simp [h]

lemma runBOps_inv (ops : List BOp) :
    BytesWF (runBOps ops) ∧ (runBOps ops).items = countBits (runBOps ops) := by
  have key : ∀ (ops : List BOp) (m : Bitmap), BytesWF m → m.items = countBits m →
      BytesWF (ops.foldl applyBOp m) ∧
        (ops.foldl applyBOp m).items = countBits (ops.foldl applyBOp m) := by
    intro ops
    induction ops with
    | nil => intro m h1 h2; exact ⟨h1, h2⟩
    | cons op ops ih =>
      intro m h1 h2
      cases op with
      | add i =>
        obtain ⟨h1', h2'⟩ := bitmap_add_inv m i h1 h2
        exact ih _ h1' h2'
      | remove i =>
        obtain ⟨h1', h2'⟩ := bitmap_remove_inv m i h1 h2
        exact ih _ h1' h2'
  exact key ops emptyBitmap (by intro b hb; simp [emptyBitmap] at hb) (by decide)

/-- C9: for every sequence of `bitmap_add`/`bitmap_remove` operations
from the empty bitmap, the `items` counter equals the number of set
bits; `bitmap_add` returns the distinct value `1` (and leaves `items`
unchanged) exactly when the bit was already set, and `bitmap_remove`
returns `false` (and leaves `items` unchanged) exactly when the bit
was absent. -/
theorem C9_items_popcount (ops : List BOp) (i : Nat) :
    (runBOps ops).items = countBits (runBOps ops) ∧
    ((bitmap_add (runBOps ops) i).2 = 1 ↔ bitmap_mem (runBOps ops) i = true) ∧
    ((bitmap_add (runBOps ops) i).1.items
      = if bitmap_mem (runBOps ops) i then (runBOps ops).items else (runBOps ops).items + 1) ∧
    ((bitmap_remove (runBOps ops) i).2 = true ↔ bitmap_mem (runBOps ops) i = true) ∧
    ((bitmap_remove (runBOps ops) i).1.items
      = if bitmap_mem (runBOps ops) i then (runBOps ops).items - 1 else (runBOps ops).items) :=
  ⟨(runBOps_inv ops).2, bitmap_add_snd _ i, bitmap_add_items _ i,
    bitmap_remove_snd _ i, bitmap_remove_items _ i⟩

/-! ## The fallback-subset invariant (C7) -/

lemma reschedule_check_sink_ids (st : ImplState) (s : Int) :
    (reschedule_check st s).sink_ids = st.sink_ids := by
  unfold reschedule_check; split <;> rfl

lemma reschedule_check_fallback (st : ImplState) (s : Int) :
    (reschedule_check st s).fallback_sink_ids = st.fallback_sink_ids := by
  unfold reschedule_check; split <;> rfl

lemma schedule_check_sink_ids (st : ImplState) (s : Int) :
    (schedule_check st s).sink_ids = st.sink_ids := by
  unfold schedule_check; split <;> rfl

lemma schedule_check_fallback (st : ImplState) (s : Int) :
    (schedule_check st s).fallback_sink_ids = st.fallback_sink_ids := by
  unfold schedule_check; split <;> rfl

lemma core_done_bitmaps (st : ImplState) (seq : Int) (ok : Bool) :
    (core_done st seq ok).1.sink_ids = st.sink_ids ∧
      (core_done st seq ok).1.fallback_sink_ids = st.fallback_sink_ids := by
  unfold core_done check_sinks sink_destroy sink_create
  split <;> [skip; exact ⟨rfl, rfl⟩]
  split
  · split <;> exact ⟨rfl, rfl⟩
  · split <;> [exact ⟨rfl, rfl⟩; skip]
    split <;> exact ⟨rfl, rfl⟩

/-- Adding an id (via `add_id`) only ever grows the membership. -/
lemma mem_add_id_mono (m : Bitmap) (id i : Nat) (h : bitmap_mem m i = true) :
    bitmap_mem (add_id m id).1 i = true := by
  unfold add_id
  split
  · exact h
  · by_cases hii : i = id
    · subst hii; exact bitmap_mem_add_self m i
    · rw [bitmap_mem_add_ne m hii]; exact h

/-- Membership after `add_id` comes from old membership or the added id. -/
lemma mem_add_id_cases (m : Bitmap) (id i : Nat)
    (h : bitmap_mem (add_id m id).1 i = true) :
    bitmap_mem m i = true ∨ i = id := by
  unfold add_id at h
  split at h
  · exact Or.inl h
  · by_cases hii : i = id
    · exact Or.inr hii
    · rw [bitmap_mem_add_ne m hii] at h; exact Or.inl h

/-- Membership after `bitmap_remove` implies old membership at a
different id. -/
lemma mem_remove_cases (m : Bitmap) (j i : Nat)
    (h : bitmap_mem (bitmap_remove m j).1 i = true) :
    bitmap_mem m i = true ∧ i ≠ j := by
  by_cases hii : i = j
  · subst hii; rw [bitmap_mem_remove_self] at h; cases h
  · rw [bitmap_mem_remove_ne m hii] at h; exact ⟨h, hii⟩

/-- Every event handler preserves the inclusion. -/
lemma fallbackSubset_step (st : ImplState) (ev : REvent) (h : FallbackSubset st) :
    FallbackSubset (applyREvent st ev) := by
  cases ev with
  | globalAdd newSeq hasProps typeIsNode mediaClass id =>
    simp only [applyREvent, registry_event_global]
    split
    · intro i hi
      rw [reschedule_check_fallback] at hi
      rw [reschedule_check_sink_ids]
      exact h i hi
    · split
      · intro i hi
        rw [reschedule_check_fallback] at hi
        rw [reschedule_check_sink_ids]
        exact h i hi
      · split
        · intro i hi
          rw [reschedule_check_fallback] at hi
          rw [reschedule_check_sink_ids]
          exact h i hi
        · intro i hi
          rw [schedule_check_fallback, reschedule_check_fallback] at hi
          rw [schedule_check_sink_ids]
          simp only [reschedule_check_sink_ids]
          exact mem_add_id_mono _ _ _ (h i hi)
  | globalRemove newSeq id =>
    simp only [applyREvent, registry_event_global_remove]
    have key : ∀ i,
        bitmap_mem (bitmap_remove (reschedule_check st newSeq).fallback_sink_ids id).1 i = true →
        bitmap_mem (bitmap_remove (reschedule_check st newSeq).sink_ids id).1 i = true := by
      intro i hi
      rw [reschedule_check_fallback] at hi
      obtain ⟨hmem, hne⟩ := mem_remove_cases _ _ _ hi
      rw [reschedule_check_sink_ids, bitmap_mem_remove_ne _ hne]
      exact h i hmem
    split
    · intro i hi
      rw [schedule_check_fallback] at hi
      rw [schedule_check_sink_ids]
      exact key i hi
    · exact key
  | bound newSeq id =>
    simp only [applyREvent, sink_proxy_bound_props]
    intro i hi
    rw [schedule_check_fallback, reschedule_check_fallback] at hi
    rw [schedule_check_sink_ids, reschedule_check_sink_ids]
    by_cases hinv : id = SPA_ID_INVALID
    · simp only [add_id, hinv, if_pos rfl] at hi ⊢
      exact h i hi
    · rcases mem_add_id_cases _ _ _ hi with hmem | hii
      · exact mem_add_id_mono _ _ _ (h i hmem)
      · subst hii
        simp only [add_id, if_neg hinv]
        exact bitmap_mem_add_self _ i
  | done seq createOk =>
    intro i hi
    simp only [applyREvent] at hi ⊢
    rw [(core_done_bitmaps st seq createOk).2] at hi
    rw [(core_done_bitmaps st seq createOk).1]
    exact h i hi

/-- C7: `FallbackSinkIdSet ⊆ SinkIdSet` is an invariant: it holds for
the empty initial sets and is preserved by every event handler, so it
holds after any event trace from the initial state. -/
theorem C7_fallback_subset :
    (∀ evs : List REvent, FallbackSubset (runREvents evs)) ∧
    (∀ (st : ImplState) (ev : REvent), FallbackSubset st → FallbackSubset (applyREvent st ev)) := by
  have hinit : FallbackSubset initImpl := by
    intro i hi
    simp [bitmap_mem, initImpl, emptyBitmap] at hi
  constructor
  · intro evs
    rw [runREvents]
    induction evs using List.reverseRecOn with
    | nil => exact hinit
    | append_singleton evs ev ih =>
      rw [List.foldl_append, List.foldl_cons, List.foldl_nil]
      exact fallbackSubset_step _ ev ih
  · exact fallbackSubset_step

/-- Witness for C7: the initial state satisfies the inclusion, and a
`bound` event starting from it preserves it. -/
theorem C7_fallback_subset_witness :
    FallbackSubset (applyREvent initImpl (REvent.bound 1 7)) :=
  C7_fallback_subset.2 initImpl (REvent.bound 1 7)
    (fun i hi => by simp [bitmap_mem, initImpl, emptyBitmap] at hi)

/-! ## C5: barrier resolution runs the reconciliation check -/

lemma schedule_check_scheduled (st : ImplState) (s : Int) :
    (schedule_check st s).scheduled = true := by
  unfold schedule_check
  split
  · next h => simpa using h
  · rfl

/-- C5: when the barrier resolution matching the last requested
sequence number arrives, the machine moves to `Idle`
(`scheduled = false`) and runs the check: with more sinks than
fallback sinks any existing fallback sink is destroyed and none is
created; otherwise an existing fallback sink is left exactly as it is
(no second one is created), and when none exists one is created
(subject to the creation call succeeding). -/
theorem C5_core_done_check (st : ImplState) (seq : Int) (ok : Bool)
    (h : seq = st.check_seq) :
    (core_done st seq ok).1.scheduled = false ∧
    (st.sink_ids.items > st.fallback_sink_ids.items →
      (core_done st seq ok).1.sink = false ∧ CAction.created ∉ (core_done st seq ok).2) ∧
    (¬ st.sink_ids.items > st.fallback_sink_ids.items →
      (st.sink = true →
        (core_done st seq ok).1 = { st with scheduled := false } ∧
          (core_done st seq ok).2 = []) ∧
      (st.sink = false →
        (core_done st seq ok).1.sink = ok ∧
          (core_done st seq ok).2 = if ok then [CAction.created] else [])) := by
  subst h
  unfold core_done check_sinks sink_destroy sink_create
  rw [if_pos rfl]
  by_cases hgt : st.sink_ids.items > st.fallback_sink_ids.items
  · rw [if_pos hgt]
    cases hs : st.sink <;> simp [hgt, hs]
  · rw [if_neg hgt]
    cases hs : st.sink
    · cases ok <;> simp [hgt, hs]
    · simp [hgt, hs]

/-- Witness for C5: from a state with no sinks at all, a matching
`done` event lands in `Idle` and creates the fallback sink. -/
theorem C5_core_done_check_witness :
    (core_done ⟨emptyBitmap, emptyBitmap, 3, true, false⟩ 3 true).1.scheduled = false ∧
    (core_done ⟨emptyBitmap, emptyBitmap, 3, true, false⟩ 3 true).1.sink = true ∧
    (core_done ⟨emptyBitmap, emptyBitmap, 3, true, false⟩ 3 true).2 = [CAction.created] := by
  obtain ⟨h1, _, h3⟩ :=
    C5_core_done_check ⟨emptyBitmap, emptyBitmap, 3, true, false⟩ 3 true rfl
  obtain ⟨h4, h5⟩ := (h3 (by decide)).2 rfl
  exact ⟨h1, h4, by simpa using h5⟩

/-! ## C6: appeared events and barrier requests -/

/-- Counterexample to C6 as stated: with id `5` already in
`SinkIdSet` and no check scheduled, a further "appeared" event for
id `5` still requests a barrier (`scheduled` becomes true), although
the id was not newly added. -/
theorem C6_counterexample :
    bitmap_mem ((⟨(bitmap_add emptyBitmap 5).1, emptyBitmap, 1, false, false⟩ :
        ImplState)).sink_ids 5 = true ∧
    (⟨(bitmap_add emptyBitmap 5).1, emptyBitmap, 1, false, false⟩ :
        ImplState).scheduled = false ∧
    (registry_event_global ⟨(bitmap_add emptyBitmap 5).1, emptyBitmap, 1, false, false⟩
        2 true true (some "Audio/Sink") 5).scheduled = true := by
  refine ⟨by decide, rfl, ?_⟩
  rfl

/-- C6 amended: on a registry "appeared" event for a sink-class node,
the id is added to `SinkIdSet` and a barrier is requested
unconditionally — `schedule_check` runs whether or not the id was
newly added (it is a no-op only when a check is already scheduled). -/
theorem C6_amended (st : ImplState) (newSeq : Int) (mediaClass : Option String) (id : Nat)
    (hmc : isSinkMediaClass mediaClass = true) (hid : id ≠ SPA_ID_INVALID) :
    bitmap_mem (registry_event_global st newSeq true true mediaClass id).sink_ids id = true ∧
    (registry_event_global st newSeq true true mediaClass id).scheduled = true := by
  unfold registry_event_global
  simp only [Bool.not_true, Bool.false_eq_true, if_false, hmc]
  constructor
  · rw [schedule_check_sink_ids]
    simp only [add_id, if_neg hid]
    exact bitmap_mem_add_self _ id
  · exact schedule_check_scheduled _ _

/-- Witness for C6 amended: a fresh sink id `5` appearing at the
initial state is recorded and schedules a check. -/
theorem C6_amended_witness :
    bitmap_mem (registry_event_global initImpl 2 true true (some "Audio/Sink") 5).sink_ids 5
        = true ∧
    (registry_event_global initImpl 2 true true (some "Audio/Sink") 5).scheduled = true :=
  C6_amended initImpl 2 (some "Audio/Sink") 5 rfl (by decide)

/-! ## C10: the NULL-data early return of the capture callback -/

/-- C10: when the dequeued capture buffer's data pointer is `NULL`,
the callback returns without writing anything, without touching the
ring buffer, and without queueing the buffer back. -/
theorem C10_null_data (rb : RB) (b : SrcBuf) (h : b.dataNull = true) :
    source_playback_process rb (some b) =
      some ⟨false, [], none, none, none, none, rb⟩ := by
  simp [source_playback_process, h]

/-- Witness for C10 at a concrete buffer and ring state. -/
theorem C10_null_data_witness :
    source_playback_process initRB (some ⟨64, 256, true⟩) =
      some ⟨false, [], none, none, none, none, initRB⟩ :=
  C10_null_data initRB ⟨64, 256, true⟩ rfl

/-! ## C1: the oversize early return leaks the playback buffer -/

/-- C1 (code bug): at chunk size `10239` with a connected socket the
callback returns without queueing the dequeued buffer back
(`queued = false`), violating the "always return the buffer" rule;
one byte less and the buffer is queued. -/
theorem C1_oversize_leak :
    (playback_stream_process (some ⟨0, 10239, 10240, []⟩) 3 true).queued = false ∧
    (playback_stream_process (some ⟨0, 10238, 10240, []⟩) 3 true).queued = true ∧
    (playback_stream_process (some ⟨0, 10239, 10240, []⟩) (-1) true).queued = true := by
  refine ⟨rfl, ?_, ?_⟩ <;> decide

/-! ## C8: the capture path uses 4 bytes per frame, not the format's 2 -/

/-- C8 (code bug): the exposed capture format is mono S16
(2 bytes per frame), but at a concrete cycle requesting 2 frames with
8 bytes buffered the callback reads `min(2*4, 100) = 8` bytes, sets
the stride to `4`, and reports `8 / 4 = 2` frames — it uses 4 bytes
per frame throughout, not the format's 2. -/
theorem C8_frame_size_mismatch :
    frameBytes parse_audio_info_mic = 2 ∧
    (source_playback_process ⟨fun _ => 7, 0, 8⟩ (some ⟨2, 100, false⟩)).map
        (fun r => (r.chunkStride, r.written.length, r.reportedFrames))
      = some (some 4, 8, some 2) := by
  exact ⟨rfl, rfl⟩

/-! ## Ring buffer lemmas -/

lemma initRB_WF : initRB.WF := ⟨by decide, by decide⟩

lemma size_eq_mod (st : RB) (h : st.WF) :
    size st = (BUFFER_SIZE + st.stop - st.start) % BUFFER_SIZE := by
  obtain ⟨hs, he⟩ := h
  rw [size]
  simp only [BUFFER_SIZE] at *
  split <;> omega

lemma size_lt (st : RB) (h : st.WF) : size st < BUFFER_SIZE := by
  rw [size_eq_mod st h]
  simp only [BUFFER_SIZE]
  omega

lemma size_zero_iff (st : RB) (h : st.WF) : size st = 0 ↔ st.start = st.stop := by
  obtain ⟨hs, he⟩ := h
  rw [size_eq_mod st ⟨hs, he⟩]
  simp only [BUFFER_SIZE] at *
  constructor <;> intro h1 <;> omega

lemma contents_length (st : RB) : (contents st).length = size st := by
  simp [contents]

lemma contents_getElem (st : RB) (i : Nat) (h : i < (contents st).length) :
    (contents st)[i] = st.buf ((st.start + i) % BUFFER_SIZE) := by
  simp [contents]

/-! ### `lastN` -/

lemma lastN_length (n : Nat) (l : List α) : (lastN n l).length = min n l.length := by
  simp [lastN]

lemma lastN_of_length_le (n : Nat) (l : List α) (h : l.length ≤ n) : lastN n l = l := by
  rw [lastN, List.take_of_length_le (by simpa using h), List.reverse_reverse]

lemma take_append_take (n : Nat) (a b : List α) :
    (a ++ b.take n).take n = (a ++ b).take n := by
  rw [List.take_append_eq_append_take, List.take_append_eq_append_take, List.take_take,
    Nat.min_eq_left (Nat.sub_le n a.length)]

lemma lastN_append_lastN (n : Nat) (l l₂ : List α) :
    lastN n (lastN n l ++ l₂) = lastN n (l ++ l₂) := by
  simp only [lastN, List.reverse_append, List.reverse_reverse]
  rw [take_append_take]

lemma lastN_eq_drop (n : Nat) (l : List α) : lastN n l = l.drop (l.length - n) := by
  apply List.ext_getElem
  · simp [lastN]
    omega
  · intro i h₁ h₂
    simp only [lastN, List.getElem_reverse, List.getElem_take, List.length_reverse,
      List.length_take, List.getElem_drop]
    simp only [lastN, List.length_reverse, List.length_take] at h₁
    congr 1
    omega

/-! ### `write1` -/

lemma write1_WF (st : RB) (b : Nat) (h : st.WF) : (write1 st b).WF := by
  obtain ⟨hs, he⟩ := h
  simp only [write1, RB.WF]
  split <;> refine ⟨?_, ?_⟩ <;> simp only [BUFFER_SIZE] at * <;> omega

lemma write1_stop (st : RB) (b : Nat) : (write1 st b).stop = (st.stop + 1) % BUFFER_SIZE := by
  simp only [write1]
  split <;> rfl

lemma size_mk (f : Nat → Nat) (s e : Nat) (hs : s < BUFFER_SIZE) (he : e < BUFFER_SIZE) :
    size ⟨f, s, e⟩ = (BUFFER_SIZE + e - s) % BUFFER_SIZE := by
  simp only [size, BUFFER_SIZE] at *
  split <;> omega

lemma contents_write1_not_full (st : RB) (b : Nat) (h : st.WF)
    (hn : size st < BUFFER_SIZE - 1) :
    contents (write1 st b) = contents st ++ [b] := by
  obtain ⟨hs, he⟩ := h
  have hsz := size_eq_mod st ⟨hs, he⟩
  have hnw : (st.stop + 1) % BUFFER_SIZE ≠ st.start := by
    simp only [BUFFER_SIZE] at *
    omega
  simp only [write1]
  rw [if_neg hnw]
  have hlen : size (⟨fun j => if j = st.stop then b else st.buf j, st.start,
      (st.stop + 1) % BUFFER_SIZE⟩ : RB) = size st + 1 := by
    rw [size_mk _ _ _ hs (Nat.mod_lt _ (by decide))]
    simp only [BUFFER_SIZE] at *
    omega
  apply List.ext_getElem
  · rw [contents_length, hlen, List.length_append, contents_length]
    simp
  · intro i h₁ h₂
    rw [contents_length, hlen] at h₁
    rw [contents_getElem]
    simp only []
    by_cases hi : i < size st
    · rw [List.getElem_append_left (by rwa [contents_length])]
      rw [contents_getElem]
      rw [if_neg (by simp only [BUFFER_SIZE] at *; omega)]
    · rw [List.getElem_append_right (by rw [contents_length]; omega)]
      have h0 : i - (contents st).length = 0 := by rw [contents_length]; omega
      simp only [h0, List.getElem_cons_zero]
      rw [if_pos (by simp only [BUFFER_SIZE] at *; omega)]

lemma contents_write1_full (st : RB) (b : Nat) (h : st.WF)
    (hn : size st = BUFFER_SIZE - 1) :
    contents (write1 st b) = (contents st).drop 1 ++ [b] := by
  obtain ⟨hs, he⟩ := h
  have hsz := size_eq_mod st ⟨hs, he⟩
  have hw : (st.stop + 1) % BUFFER_SIZE = st.start := by
    simp only [BUFFER_SIZE] at *
    omega
  simp only [write1]
  rw [if_pos hw]
  have hlen : size (⟨fun j => if j = st.stop then b else st.buf j,
      (st.start + 1) % BUFFER_SIZE, (st.stop + 1) % BUFFER_SIZE⟩ : RB)
      = BUFFER_SIZE - 1 := by
    rw [size_mk _ _ _ (Nat.mod_lt _ (by decide)) (Nat.mod_lt _ (by decide))]
    simp only [BUFFER_SIZE] at *
    omega
  apply List.ext_getElem
  · rw [contents_length, hlen, List.length_append, List.length_drop, contents_length, hn]
    simp only [List.length_cons, List.length_nil, BUFFER_SIZE]
  · intro i h₁ h₂
    rw [contents_length, hlen] at h₁
    rw [contents_getElem]
    simp only []
    rw [Nat.mod_add_mod]
    by_cases hi : i < BUFFER_SIZE - 2
    · rw [List.getElem_append_left
        (by simp only [List.length_drop, contents_length, hn, BUFFER_SIZE] at *; omega)]
      rw [List.getElem_drop, contents_getElem]
      rw [if_neg (by simp only [BUFFER_SIZE] at *; omega)]
      congr 1
      simp only [BUFFER_SIZE] at *
      omega
    · rw [List.getElem_append_right
        (by simp only [List.length_drop, contents_length, hn, BUFFER_SIZE] at *; omega)]
      have h0 : i - ((contents st).drop 1).length = 0 := by
        simp only [List.length_drop, contents_length, hn, BUFFER_SIZE] at *
        omega
      simp only [h0, List.getElem_cons_zero]
      rw [if_pos (by simp only [BUFFER_SIZE] at *; omega)]

lemma contents_write1 (st : RB) (b : Nat) (h : st.WF) :
    contents (write1 st b) = lastN (BUFFER_SIZE - 1) (contents st ++ [b]) := by
  by_cases hn : size st < BUFFER_SIZE - 1
  · rw [contents_write1_not_full st b h hn, lastN_of_length_le]
    rw [List.length_append, contents_length]
    simp only [List.length_cons, List.length_nil, BUFFER_SIZE] at *
    omega
  · have hfull : size st = BUFFER_SIZE - 1 := by
      have := size_lt st h
      simp only [BUFFER_SIZE] at *
      omega
    rw [contents_write1_full st b h hfull, lastN_eq_drop]
    have hl : (contents st ++ [b]).length - (BUFFER_SIZE - 1) = 1 := by
      rw [List.length_append, contents_length, hfull]
      simp only [List.length_cons, List.length_nil, BUFFER_SIZE]
    rw [hl]
    have hc : (1 : Nat) ≤ (contents st).length := by
      rw [contents_length, hfull]
      simp only [BUFFER_SIZE]
      omega
    rw [List.drop_append_of_le_length hc]

/-! ### `writeAll` -/

lemma contents_writeAll (bs : List Nat) : ∀ (st : RB), st.WF →
    contents (writeAll st bs) = lastN (BUFFER_SIZE - 1) (contents st ++ bs) ∧
      (writeAll st bs).WF := by
  induction bs with
  | nil =>
    intro st h
    refine ⟨?_, h⟩
    rw [writeAll, List.foldl_nil, List.append_nil, lastN_of_length_le]
    rw [contents_length]
    have := size_lt st h
    simp only [BUFFER_SIZE] at *
    omega
  | cons b bs ih =>
    intro st h
    rw [writeAll, List.foldl_cons]
    obtain ⟨ih1, ih2⟩ := ih (write1 st b) (write1_WF st b h)
    refine ⟨?_, ih2⟩
    rw [show bs.foldl write1 (write1 st b) = writeAll (write1 st b) bs from rfl]
    rw [ih1, contents_write1 st b h, lastN_append_lastN]
    congr 1
    simp

lemma writeAll_stop (bs : List Nat) : ∀ (st : RB), st.stop < BUFFER_SIZE →
    (writeAll st bs).stop = (st.stop + bs.length) % BUFFER_SIZE := by
  induction bs with
  | nil =>
    intro st h
    rw [writeAll, List.foldl_nil, List.length_nil, Nat.add_zero, Nat.mod_eq_of_lt h]
  | cons b bs ih =>
    intro st h
    rw [writeAll, List.foldl_cons]
    rw [show bs.foldl write1 (write1 st b) = writeAll (write1 st b) bs from rfl]
    rw [ih (write1 st b) (by rw [write1_stop]; exact Nat.mod_lt _ (by decide))]
    rw [write1_stop, Nat.mod_add_mod]
    congr 1
    simp only [List.length_cons]
    omega

/-! ### `read` -/

lemma avail_le (st : RB) (h : st.WF) (hne : st.start ≠ st.stop) :
    availableContiguous st ≤ size st ∧ availableContiguous st ≤ BUFFER_SIZE - st.start := by
  obtain ⟨hs, he⟩ := h
  simp only [availableContiguous, size, BUFFER_SIZE] at *
  constructor
  · split
    · split <;> omega
    · split <;> omega
  · split <;> omega

lemma read_WF (st : RB) (m : Nat) (h : st.WF) : (read st m).2.WF := by
  obtain ⟨hs, he⟩ := h
  exact ⟨Nat.mod_lt _ (by decide), he⟩

lemma read_fst (st : RB) (m : Nat) (h : st.WF) (hne : st.start ≠ st.stop) :
    (read st m).1 = (contents st).take (min m (availableContiguous st)) := by
  obtain ⟨hle, hwrap⟩ := avail_le st h hne
  obtain ⟨hs, he⟩ := h
  apply List.ext_getElem
  · simp only [read, List.length_map, List.length_range, List.length_take, contents_length]
    omega
  · intro i h₁ h₂
    simp only [read, List.getElem_map, List.getElem_range, List.getElem_take]
    simp only [read, List.length_map, List.length_range] at h₁
    rw [contents_getElem]
    congr 1
    simp only [BUFFER_SIZE] at *
    omega

lemma read_snd_contents (st : RB) (m : Nat) (h : st.WF) (hne : st.start ≠ st.stop) :
    contents (read st m).2 = (contents st).drop (min m (availableContiguous st)) := by
  obtain ⟨hle, hwrap⟩ := avail_le st h hne
  obtain ⟨hs, he⟩ := h
  have hsz := size_eq_mod st ⟨hs, he⟩
  have hlen : size (read st m).2 = size st - min m (availableContiguous st) := by
    simp only [read]
    rw [size_mk _ _ _ (Nat.mod_lt _ (by decide)) he]
    simp only [BUFFER_SIZE] at *
    omega
  apply List.ext_getElem
  · rw [contents_length, hlen, List.length_drop, contents_length]
  · intro i h₁ h₂
    rw [contents_length, hlen] at h₁
    rw [contents_getElem, List.getElem_drop, contents_getElem]
    simp only [read]
    rw [Nat.mod_add_mod]
    congr 1
    simp only [BUFFER_SIZE] at *
    omega

/-- The full per-read contract (C4's content). -/
lemma readContract_holds (st : RB) (m : Nat) (h : st.WF) (hne : st.start ≠ st.stop) :
    ReadContract st m := by
  obtain ⟨hle, hwrap⟩ := avail_le st h hne
  refine ⟨read_fst st m h hne, ?_, read_snd_contents st m h hne, rfl, rfl, ?_⟩
  · simp [read]
  · omega

/-! ### Draining reads -/

lemma readSeq_flatten (ms : List Nat) : ∀ (st : RB) (outs : List (List Nat)) (st' : RB),
    st.WF → readSeq st ms = some (outs, st') → st'.start = st'.stop →
    outs.flatten = contents st := by
  induction ms with
  | nil =>
    intro st outs st' hwf hseq hemp
    simp only [readSeq, Option.some.injEq, Prod.mk.injEq] at hseq
    obtain ⟨h1, h2⟩ := hseq
    subst h1
    subst h2
    have h0 : size st = 0 := (size_zero_iff st hwf).2 hemp
    have hc := contents_length st
    rw [h0] at hc
    rw [List.eq_nil_of_length_eq_zero hc]
    rfl
  | cons m ms ih =>
    intro st outs st' hwf hseq hemp
    simp only [readSeq, readB] at hseq
    by_cases hne : st.start = st.stop
    · rw [if_pos hne] at hseq
      simp at hseq
    · rw [if_neg hne] at hseq
      rcases hread : read st m with ⟨out, st₂⟩
      rw [hread] at hseq
      simp only [] at hseq
      cases hq : readSeq st₂ ms with
      | none =>
        rw [hq] at hseq
        simp at hseq
      | some p =>
        obtain ⟨outs₁, st₁⟩ := p
        rw [hq] at hseq
        simp only [Option.some.injEq, Prod.mk.injEq] at hseq
        obtain ⟨h1, h2⟩ := hseq
        subst h1
        subst h2
        have h2' : (read st m).2 = st₂ := by rw [hread]
        have h1' : (read st m).1 = out := by rw [hread]
        have ih' := ih st₂ outs₁ st₁ (h2' ▸ read_WF st m hwf) hq hemp
        rw [List.flatten_cons, ih', ← h2', ← h1',
          read_fst st m hwf hne, read_snd_contents st m hwf hne]
        exact List.take_append_drop _ _

/-- A single read large enough to cover the whole buffered contents
drains the buffer and returns exactly the contents. -/
lemma readSeqJoin_single (st : RB) (m : Nat) (h : st.WF) (hne : st.start ≠ st.stop)
    (hall : size st ≤ min m (availableContiguous st)) :
    readSeqJoin st [m] = some (contents st, true) := by
  rw [readSeqJoin]
  rcases hread : read st m with ⟨out, st₂⟩
  have h2' : (read st m).2 = st₂ := by rw [hread]
  have h1' : (read st m).1 = out := by rw [hread]
  have hkeq : min m (availableContiguous st) = size st :=
    le_antisymm (le_trans (min_le_right _ _) (avail_le st h hne).1) hall
  have hout : out = contents st := by
    rw [← h1', read_fst st m h hne, hkeq,
      List.take_of_length_le (le_of_eq (contents_length st))]
  have hsz2 : size st₂ = 0 := by
    rw [← contents_length, ← h2', read_snd_contents st m h hne, List.length_drop,
      contents_length, hkeq]
    omega
  have hemp : st₂.start = st₂.stop := (size_zero_iff st₂ (h2' ▸ read_WF st m h)).1 hsz2
  simp only [readSeq, readB, if_neg hne, hread]
  simp [hout, hemp]

/-! ## C2: the oldest-byte-discard law -/

/-- Counterexample to C2 as stated: after writing `BUFFER_SIZE + 1`
bytes, the buffer does NOT hold the most recent `BUFFER_SIZE` bytes of
the stream — it can hold at most `BUFFER_SIZE - 1` bytes, because
`start == stop` denotes the empty buffer. -/
theorem C2_counterexample :
    contents (writeAll initRB (List.replicate (BUFFER_SIZE + 1) 0))
      ≠ lastN BUFFER_SIZE (List.replicate (BUFFER_SIZE + 1) 0) := by
  intro hcontra
  have hc := (contents_writeAll (List.replicate (BUFFER_SIZE + 1) 0) initRB initRB_WF).1
  rw [show contents initRB = [] from rfl, List.nil_append] at hc
  have h1 := congrArg List.length hcontra
  rw [hc, lastN_length, lastN_length, List.length_replicate] at h1
  simp only [BUFFER_SIZE] at h1
  omega

/-- C2 amended: for every write stream from the initial (empty) state
whose total exceeds the capacity, the buffer contents are exactly the
most recently written `BUFFER_SIZE - 1` bytes of the stream, in order
(the ring holds at most `BUFFER_SIZE - 1` bytes since `start == stop`
means empty). -/
theorem C2_overflow_amended (bs : List Nat) (h : bs.length > BUFFER_SIZE) :
    contents (writeAll initRB bs) = lastN (BUFFER_SIZE - 1) bs := by
  have hc := (contents_writeAll bs initRB initRB_WF).1
  rw [show contents initRB = [] from rfl, List.nil_append] at hc
  exact hc

/-- Witness for C2 amended at a stream of `BUFFER_SIZE + 1` zero bytes. -/
theorem C2_overflow_amended_witness :
    contents (writeAll initRB (List.replicate (BUFFER_SIZE + 1) 0))
      = lastN (BUFFER_SIZE - 1) (List.replicate (BUFFER_SIZE + 1) 0) :=
  C2_overflow_amended _ (by rw [List.length_replicate]; omega)

/-! ## C3: write-then-drain round trip -/

/-- Counterexample to C3 as stated: writing exactly `BUFFER_SIZE`
bytes (allowed by "total at most the capacity") already loses the
first byte: draining returns only the last `BUFFER_SIZE - 1` bytes. -/
theorem C3_counterexample :
    (1 :: List.replicate (BUFFER_SIZE - 1) 0).length ≤ BUFFER_SIZE ∧
    readSeqJoin (writeAll initRB (1 :: List.replicate (BUFFER_SIZE - 1) 0)) [BUFFER_SIZE]
      = some (List.replicate (BUFFER_SIZE - 1) 0, true) ∧
    List.replicate (BUFFER_SIZE - 1) 0 ≠ 1 :: List.replicate (BUFFER_SIZE - 1) 0 := by
  obtain ⟨hc, hwf⟩ :=
    contents_writeAll (1 :: List.replicate (BUFFER_SIZE - 1) 0) initRB initRB_WF
  rw [show contents initRB = [] from rfl, List.nil_append] at hc
  have hcontents : contents (writeAll initRB (1 :: List.replicate (BUFFER_SIZE - 1) 0))
      = List.replicate (BUFFER_SIZE - 1) 0 := by
    rw [hc, lastN_eq_drop]
    have hL : (1 :: List.replicate (BUFFER_SIZE - 1) 0).length - (BUFFER_SIZE - 1) = 1 := by
      rw [List.length_cons, List.length_replicate]
      simp only [BUFFER_SIZE]
    rw [hL]
    rfl
  have hstop : (writeAll initRB (1 :: List.replicate (BUFFER_SIZE - 1) 0)).stop = 0 := by
    rw [writeAll_stop _ initRB (by decide), List.length_cons, List.length_replicate]
    decide
  have hsize : size (writeAll initRB (1 :: List.replicate (BUFFER_SIZE - 1) 0))
      = BUFFER_SIZE - 1 := by
    rw [← contents_length, hcontents, List.length_replicate]
  have hstart : (writeAll initRB (1 :: List.replicate (BUFFER_SIZE - 1) 0)).start = 1 := by
    obtain ⟨hs1, hs2⟩ := hwf
    have hm := size_eq_mod _ ⟨hs1, hs2⟩
    rw [hsize, hstop] at hm
    simp only [BUFFER_SIZE] at hm hs1 ⊢
    omega
  have hne : (writeAll initRB (1 :: List.replicate (BUFFER_SIZE - 1) 0)).start
      ≠ (writeAll initRB (1 :: List.replicate (BUFFER_SIZE - 1) 0)).stop := by
    rw [hstart, hstop]
    decide
  have havail : availableContiguous (writeAll initRB (1 :: List.replicate (BUFFER_SIZE - 1) 0))
      = BUFFER_SIZE - 1 := by
    simp [availableContiguous, hstart, hstop]
  refine ⟨?_, ?_, ?_⟩
  · rw [List.length_cons, List.length_replicate]
    simp only [BUFFER_SIZE]
    omega
  · rw [readSeqJoin_single _ _ hwf hne (by rw [havail, hsize]; simp only [BUFFER_SIZE]; omega)]
    rw [hcontents]
  · intro hcontra
    have h1 := congrArg List.length hcontra
    rw [List.length_replicate, List.length_cons, List.length_replicate] at h1
    simp only [BUFFER_SIZE] at h1
    omega

/-- C3 amended: for every write stream from the initial (empty) state
whose total is at most `BUFFER_SIZE - 1` bytes, every sequence of
blocking reads that completes and leaves the buffer empty returns
exactly the written bytes, in order. -/
theorem C3_write_read_roundtrip (bs ms out : List Nat)
    (hlen : bs.length < BUFFER_SIZE)
    (hrun : readSeqJoin (writeAll initRB bs) ms = some (out, true)) :
    out = bs := by
  obtain ⟨hc, hwf⟩ := contents_writeAll bs initRB initRB_WF
  rw [show contents initRB = [] from rfl, List.nil_append] at hc
  rw [readSeqJoin] at hrun
  cases hq : readSeq (writeAll initRB bs) ms with
  | none =>
    rw [hq] at hrun
    simp at hrun
  | some p =>
    obtain ⟨outs₁, st₁⟩ := p
    rw [hq] at hrun
    simp only [Option.map, Option.some.injEq, Prod.mk.injEq] at hrun
    obtain ⟨hf, hb⟩ := hrun
    have hemp : st₁.start = st₁.stop := by simpa using hb
    have hfl := readSeq_flatten ms (writeAll initRB bs) outs₁ st₁ hwf hq hemp
    rw [← hf, hfl, hc]
    exact lastN_of_length_le _ _ (by simp only [BUFFER_SIZE] at *; omega)

/-- Witness for C3 amended: three bytes written, drained by one read. -/
theorem C3_write_read_roundtrip_witness :
    readSeqJoin (writeAll initRB [1, 2, 3]) [3] = some (([1, 2, 3] : List Nat), true) ∧
    ([1, 2, 3] : List Nat) = [1, 2, 3] :=
  ⟨by decide, C3_write_read_roundtrip [1, 2, 3] [3] [1, 2, 3] (by decide) (by decide)⟩

/-! ## C4: the single-read contract -/

/-- C4: on every well-formed non-empty ring state and any request
`m`, the read returns exactly `min m availableContiguous` bytes — the
oldest buffered bytes starting at `start` — advances `start` by that
amount (mod the capacity), leaves `stop` alone, and never reads across
the wrap boundary. -/
theorem C4_read_contract (st : RB) (m : Nat) (h : st.WF) (hne : st.start ≠ st.stop) :
    ReadContract st m :=
  readContract_holds st m h hne

/-- Witness for C4 at a concrete non-empty state. -/
theorem C4_read_contract_witness : ReadContract ⟨fun i => i, 2, 5⟩ 2 :=
  C4_read_contract ⟨fun i => i, 2, 5⟩ 2 ⟨by decide, by decide⟩ (by decide)

end Lindroid
